import Mathlib

/-!
Verification development for the SME spectral-synthesis orchestration pipeline
(`src/sme/solve.py`).  Python floating-point arithmetic is embedded as real
arithmetic over `ℝ` for the numerical routines; the discrete replacement
semantics of `np.nan_to_num` is embedded over an explicit IEEE-style value
domain with exact rationals; list- and string-processing code is embedded
computably.  Each definition carries a comment naming the source lines it
embeds.
-/

/-- Speed of light in km/s: `clight = speed_of_light * 1e-3` (solve.py line 29). -/
noncomputable def clight : ℝ := 299792.458

/-! ## Wavelength-Range Planner (`get_wavelengthrange`, solve.py lines 483-495) -/

/-- Embedding of `get_wavelengthrange(wran, vrad, vsini)` (solve.py lines 483-495).
`np.clip(x, 0, None)` is `max x 0` and `np.clip(x, None, 0)` is `min x 0`. -/
noncomputable def get_wavelengthrange (wran : ℝ × ℝ) (vrad vsini : ℝ) : ℝ × ℝ :=
  let vrad_pad : ℝ := 30.0 + 0.5 * max vsini 0
  let vbeg : ℝ := vrad_pad + max vrad 0
  let vend : ℝ := vrad_pad - min vrad 0
  (wran.1 * (1 - vbeg / clight), wran.2 * (1 + vend / clight))

/-- Total padding added by the planner: (nominal begin - padded begin) plus
(padded end - nominal end). -/
noncomputable def totalPad (wran : ℝ × ℝ) (vrad vsini : ℝ) : ℝ :=
  (wran.1 - (get_wavelengthrange wran vrad vsini).1)
    + ((get_wavelengthrange wran vrad vsini).2 - wran.2)

/-! ## Adaptive Grid Builder (`new_wavelength_grid`, solve.py lines 498-536) -/

/-- First element of the intrinsic grid, `wint[0]`. -/
noncomputable def wbegOf (w : List ℝ) : ℝ := w.headI

/-- Last element of the intrinsic grid, `wint[-1]`. -/
noncomputable def wendOf (w : List ℝ) : ℝ := w.getLastI

/-- Adjacent differences `diff = wint[1:] - wint[:-1]` (solve.py line 511). -/
noncomputable def diffOf (w : List ℝ) : List ℝ :=
  List.zipWith (fun a b => a - b) w.tail w

/-- Index of the first minimum of a list, as `np.argmin` (first occurrence). -/
noncomputable def argminAux : List ℝ → ℕ → ℕ → ℝ → ℕ
  | [], _, best, _ => best
  | x :: xs, i, best, bv =>
      if x < bv then argminAux xs (i + 1) i x else argminAux xs (i + 1) best bv

/-- `np.argmin` on a list of reals (0 on the empty list, as a junk value). -/
noncomputable def npargmin : List ℝ → ℕ
  | [] => 0
  | x :: xs => argminAux xs 1 0 x

/-- Candidate step [1]: `vstep1 = diff[jmin] / wint[jmin] * clight`
(solve.py lines 512-513), the smallest adjacent spacing as a velocity. -/
noncomputable def vstep1Of (w : List ℝ) : ℝ :=
  (diffOf w).getD (npargmin (diffOf w)) 0 / w.getD (npargmin (diffOf w)) 0 * clight

/-- Candidate step [2]: `vstep2 = 0.1 * wspan / (len(wint)-1) / wmid * clight`
(solve.py line 514), 10% of the mean dispersion as a velocity. -/
noncomputable def vstep2Of (w : List ℝ) : ℝ :=
  0.1 * (wendOf w - wbegOf w) / ((w.length : ℝ) - 1)
    / (0.5 * (wendOf w + wbegOf w)) * clight

/-- The chosen uniform step `vstep = max(vstep1, vstep2, vstep3)` with
`vstep3 = 0.05` (solve.py lines 515-516). -/
noncomputable def vstepChosen (w : List ℝ) : ℝ :=
  max (max (vstep1Of w) (vstep2Of w)) 0.05

/-- The point count before odd-forcing:
`nx = int(np.abs(np.log10(wend/wbeg)) / np.log10(1 + vstep/clight) + 1)`
(solve.py lines 519-521).  Python `int` truncates; the argument is nonnegative
here, so it is the floor. -/
noncomputable def nxOf (w : List ℝ) : ℤ :=
  ⌊|Real.logb 10 (wendOf w / wbegOf w)|
      / Real.logb 10 (1 + vstepChosen w / clight) + 1⌋

/-- Odd-forcing: `if nx % 2 == 0: nx += 1` (solve.py lines 522-523). -/
noncomputable def nxOddOf (w : List ℝ) : ℤ :=
  if nxOf w % 2 = 0 then nxOf w + 1 else nxOf w

/-- `np.geomspace(a, b, num=n)`: a geometric progression from `a` to `b` with
`n` points; for `n = 1` the exponent is `0/0 = 0` so the single point is `a`,
matching numpy. -/
noncomputable def geomspace (a b : ℝ) (n : ℕ) : List ℝ :=
  (List.range n).map fun k : ℕ => a * (b / a) ^ ((k : ℝ) / ((n : ℝ) - 1))

/-- The output grid `x_seg = np.geomspace(wbeg, wend, num=nx)` (solve.py line 533). -/
noncomputable def gridOf (w : List ℝ) : List ℝ :=
  geomspace (wbegOf w) (wendOf w) (nxOddOf w).toNat

/-- The realized velocity step reported by the builder:
`resol_out = 1 / np.diff(np.log(x_seg[:2]))[0]; vstep = clight / resol_out`
(solve.py lines 534-535). -/
noncomputable def vstepOutOf (w : List ℝ) : ℝ :=
  clight / (1 / (Real.log ((gridOf w).getD 1 0) - Real.log ((gridOf w).getD 0 0)))

/-- Embedding of `new_wavelength_grid(wint)` (solve.py lines 498-536).
When fewer than two output points are generated, line 534 indexes the empty
`np.diff` of a one-point slice and the function raises `IndexError`; this is
modelled as `none`. -/
noncomputable def new_wavelength_grid (w : List ℝ) : Option (List ℝ × ℝ) :=
  if 2 ≤ nxOddOf w then some (gridOf w, vstepOutOf w) else none

/-! ## Float value domain for the residual vector (`residuals`, solve.py 128-132) -/

/-- An IEEE-754 double is either finite (embedded as an exact rational), NaN,
or a signed infinity.  Signed zeros are not distinguished. -/
inductive FloatVal where
  | fin : ℚ → FloatVal
  | nan : FloatVal
  | pinf : FloatVal
  | ninf : FloatVal
deriving DecidableEq, Repr

/-- The largest finite IEEE double, `np.finfo(float).max = (2 - 2⁻⁵²)·2¹⁰²³`. -/
def FMAX : ℚ := 2 ^ 1024 - 2 ^ 971

/-- IEEE-style subtraction on the embedded value domain. -/
def fsub : FloatVal → FloatVal → FloatVal
  | .nan, _ => .nan
  | .fin _, .nan => .nan
  | .pinf, .nan => .nan
  | .ninf, .nan => .nan
  | .fin a, .fin b => .fin (a - b)
  | .fin _, .pinf => .ninf
  | .fin _, .ninf => .pinf
  | .pinf, .fin _ => .pinf
  | .pinf, .pinf => .nan
  | .pinf, .ninf => .pinf
  | .ninf, .fin _ => .ninf
  | .ninf, .pinf => .ninf
  | .ninf, .ninf => .nan

/-- IEEE-style addition on the embedded value domain. -/
def fadd : FloatVal → FloatVal → FloatVal
  | .nan, _ => .nan
  | .fin _, .nan => .nan
  | .pinf, .nan => .nan
  | .ninf, .nan => .nan
  | .fin a, .fin b => .fin (a + b)
  | .fin _, .pinf => .pinf
  | .fin _, .ninf => .ninf
  | .pinf, .fin _ => .pinf
  | .pinf, .pinf => .pinf
  | .pinf, .ninf => .nan
  | .ninf, .fin _ => .ninf
  | .ninf, .pinf => .nan
  | .ninf, .ninf => .ninf

/-- IEEE-style division on the embedded value domain (without signed zeros:
a finite numerator over zero takes the sign of the numerator, `0/0` is NaN,
as numpy produces for double arrays). -/
def fdiv : FloatVal → FloatVal → FloatVal
  | .nan, _ => .nan
  | .fin _, .nan => .nan
  | .pinf, .nan => .nan
  | .ninf, .nan => .nan
  | .fin a, .fin b =>
      if b = 0 then (if a = 0 then .nan else if 0 < a then .pinf else .ninf)
      else .fin (a / b)
  | .fin _, .pinf => .fin 0
  | .fin _, .ninf => .fin 0
  | .pinf, .fin b => if 0 ≤ b then .pinf else .ninf
  | .pinf, .pinf => .nan
  | .pinf, .ninf => .nan
  | .ninf, .fin b => if 0 ≤ b then .ninf else .pinf
  | .ninf, .pinf => .nan
  | .ninf, .ninf => .nan

/-- `np.nan_to_num` with default arguments: NaN becomes `0.0`, positive
infinity becomes the largest finite double, negative infinity becomes the
most negative finite double.  Finite values pass through unchanged. -/
def nan_to_num : FloatVal → FloatVal
  | .nan => .fin 0
  | .pinf => .fin FMAX
  | .ninf => .fin (-FMAX)
  | .fin q => .fin q

/-- The residual vector of `residuals` (solve.py lines 128-132):
`resid = (synth - spec) / (uncs + uncs_linelist)` with `uncs_linelist = 0`,
then `resid = np.nan_to_num(resid, copy=False)`. -/
def residualsVector (synth spec uncs : List FloatVal) : List FloatVal :=
  (List.zipWith fdiv (List.zipWith fsub synth spec)
      (uncs.map fun u => fadd u (.fin 0))).map nan_to_num

/-- The `AtmosphereError` raised by the atmosphere interpolator when the
requested parameters leave the grid (imported in solve.py line 22). -/
structure AtmosphereError where
  msg : String

/-- The slice of the SME model state that `residuals` reads back from the
synthesizer: the synthetic spectrum. -/
structure SynthState where
  synth : List FloatVal

/-- `residuals` either returns the residual array or the scalar `np.inf`. -/
inductive ResidReturn where
  | arr : List FloatVal → ResidReturn
  | scalar : FloatVal → ResidReturn
deriving DecidableEq

/-- Boolean masking `synth[mask]` (solve.py line 124). -/
def applyMask (xs : List FloatVal) (mask : List Bool) : List FloatVal :=
  (List.zipWith (fun x b => (x, b)) xs mask).filterMap
    fun p => if p.2 then some p.1 else none

/-- Embedding of the error handling and residual computation of
`residuals` (solve.py lines 95-132): synthesis is attempted; an
`AtmosphereError` is caught and the scalar `np.inf` returned (lines 99-103);
otherwise the synthetic spectrum is masked (lines 122-126) and the residual
vector computed (lines 128-132). -/
def residuals (synthesize : SynthState → Except AtmosphereError SynthState)
    (sme : SynthState) (spec uncs : List FloatVal) (mask : Option (List Bool)) :
    ResidReturn :=
  match synthesize sme with
  | .error _ => .scalar .pinf
  | .ok sme2 =>
      let synth := match mask with
        | some m => applyMask sme2.synth m
        | none => sme2.synth
      .arr (residualsVector synth spec uncs)

/-! ## Fit Driver chi-square (`solve`, solve.py lines 355-363 and 408) -/

/-- The slice of the SME model state relevant to the reduced chi-square:
per-segment observed spectrum and good-pixel mask. -/
structure SmeState where
  spec : List (List ℝ)
  mask_good : List (List Bool)

/-- `sme.spec.size`: the total number of stored observed points across all
segments, regardless of mask or requested segments. -/
def specTotalSize (sme : SmeState) : ℕ := (sme.spec.map List.length).sum

/-- The number of residual comparison points: the masked points of the
requested segments, as selected in solve.py lines 355-359
(`mask = sme.mask_good[segments]; spec = sme.spec[segments][mask]`). -/
def comparisonPoints (sme : SmeState) (segments : List ℕ) : ℕ :=
  (segments.map fun i => ((sme.mask_good.getD i []).filter (fun b => b)).length).sum

/-- The stored reduced chi-square
`sme.fitresults.chisq = res.cost * 2 / (sme.spec.size - nparam)`
(solve.py line 408).  Note it divides by the full stored spectrum size. -/
noncomputable def fitChisq (sme : SmeState) (cost : ℝ) (nparam : ℕ) : ℝ :=
  cost * 2 / ((specTotalSize sme : ℝ) - (nparam : ℝ))

/-! ## Parameter-name sanitization (`solve`, solve.py lines 325-343) -/

/-- Python `str.casefold` restricted to ASCII parameter names: lowercase every
character (solve.py line 326). -/
def casefold (s : String) : String := ⟨s.data.map Char.toLower⟩

/-- Python `str.capitalize`: first character uppercased, the rest lowercased. -/
def pyCapitalize (s : String) : String :=
  match s.data with
  | [] => s
  | c :: cs => ⟨c.toUpper :: cs.map Char.toLower⟩

/-- Python `p[-5:] == "abund"`: the last five characters (or the whole string
if shorter) equal `"abund"`. -/
def endsWithAbund (p : String) : Bool :=
  decide ((p.data.reverse.take 5).reverse = "abund".data)

/-- The per-name normalization of solve.py lines 326-330 applied to one name:
casefold, capitalize abundance names, then map the synonyms
`grav -> logg` and `feh -> monh`. -/
def canonName (p : String) : String :=
  let p1 := casefold p
  let p2 := if endsWithAbund p1 then pyCapitalize p1 else p1
  let p3 := if p2 = "grav" then "logg" else p2
  if p3 = "feh" then "monh" else p3

/-- First-occurrence deduplication: keep the first copy of every value. -/
def uniqueFirst : List String → List String
  | [] => []
  | a :: as => a :: (uniqueFirst as).filter (fun b => b ≠ a)

/-- Lexicographic comparison of character lists (the ASCII string order used
by `np.unique` when sorting). -/
def strLeb : List Char → List Char → Bool
  | [], _ => true
  | _ :: _, [] => false
  | a :: as, b :: bs => if a = b then strLeb as bs else decide (a < b)

/-- `np.unique(param_names)` sorts the distinct values (solve.py line 334). -/
def npUniqueSorted (l : List String) : List String :=
  (uniqueFirst l).insertionSort (fun a b => strLeb a.data b.data = true)

/-- `param_names[np.argsort(index)]` (solve.py lines 334-335): with
`return_index=True`, `index[i]` is the first-occurrence index of the i-th
sorted unique value, and `argsort` reorders the unique values by that index. -/
def npUniqueFirstOrder (l : List String) : List String :=
  (npUniqueSorted l).insertionSort (fun a b => l.indexOf a ≤ l.indexOf b)

/-- The full name-sanitization pipeline of solve.py lines 325-335: per-name
normalization followed by `np.unique` and reordering by first occurrence. -/
def sanitizeParamNames (names : List String) : List String :=
  npUniqueFirstOrder (names.map canonName)

/-- The auxiliary-mode toggles recorded by `solve`. -/
structure SolveSetup where
  param_names : List String
  vrad_flag : Option String
  cscale_flag : Option ℤ

/-- Embedding of solve.py lines 325-343.  After line 334, `param_names` is a
`numpy.ndarray` (the return type of `np.unique` and of fancy indexing), and
`numpy.ndarray` has no method `remove`; hence when `"vrad"` (or `"cont"`) is
present, line 338 (resp. 342) raises `AttributeError` before the flag
assignment on line 339 (resp. 343) runs.  The exception is modelled as
`Except.error`. -/
def solveParamSetup (names : List String) : Except String SolveSetup :=
  let ps := sanitizeParamNames names
  if "vrad" ∈ ps then
    .error "AttributeError: numpy.ndarray object has no attribute remove"
  else if "cont" ∈ ps then
    .error "AttributeError: numpy.ndarray object has no attribute remove"
  else
    .ok ⟨ps, none, none⟩

/-! ## Segment validation (`synthesize_spectrum`, solve.py lines 589-594) -/

/-- The `segments` argument of `synthesize_spectrum`: the string `"all"` or an
explicit list of indices. -/
inductive SegSpec where
  | all : SegSpec
  | idx : List ℤ → SegSpec

/-- Embedding of solve.py lines 589-594: `"all"` expands to
`range(n_segments)`; an explicit list is checked and
`IndexError("Segment(s) out of range")` is raised if a requested index is
negative or not below the segment count. -/
def validateSegments (nseg : ℕ) : SegSpec → Except String (List ℤ)
  | .all => .ok ((List.range nseg).map Int.ofNat)
  | .idx segs =>
      if segs.any (fun s => decide (s < 0) || decide ((nseg : ℤ) ≤ s)) then
        .error "Segment(s) out of range"
      else .ok segs

/-- The segment loop of `synthesize_spectrum` abstracted over the external
engine: validation happens first, and only when it succeeds is the engine
driven for each requested segment (solve.py lines 589-594 versus 616-694). -/
def synthesizeSegments {α : Type} (nseg : ℕ) (engine : ℤ → α) (segs : SegSpec) :
    Except String (List α) :=
  (validateSegments nseg segs).map fun l => l.map engine

/-! ## Per-segment Doppler shift and continuum polynomial (solve.py 702-710) -/

/-- The radial-velocity wavelength rescaling factor
`np.sqrt((1 + vrad/clight) / (1 - vrad/clight))` (solve.py line 704). -/
noncomputable def rvFactorOf (v : ℝ) : ℝ :=
  Real.sqrt ((1 + v / clight) / (1 - v / clight))

/-- `np.polyval(cs, x)`: polynomial with coefficients from highest degree
down, evaluated by Horner's rule. -/
noncomputable def polyval (cs : List ℝ) (x : ℝ) : ℝ :=
  cs.foldl (fun acc c => acc * x + c) 0

open Classical in
/-- The continuum-correction step of solve.py lines 708-710: when a continuum
polynomial was determined and is not identically zero, the flux is multiplied
by the polynomial evaluated at wavelength minus first sample. -/
noncomputable def contApply (cs : Option (List ℝ)) (wave flux : List ℝ) : List ℝ :=
  match cs with
  | none => flux
  | some c =>
      if ∀ x ∈ c, x = 0 then flux
      else List.zipWith (fun s wv => s * polyval c (wv - wave.headI)) flux wave

open Classical in
/-- Embedding of the per-segment post-processing loop of `synthesize_spectrum`
(solve.py lines 702-710): if the segment's radial velocity is not `None`, the
model wavelength grid `wmod` is multiplied by the Doppler factor; then the
flux is resampled onto the output wavelength array by `safe_interpolation`
(abstracted as `interp`); then the continuum polynomial is applied. -/
noncomputable def applySegmentPost (interp : List ℝ → List ℝ → List ℝ → List ℝ)
    (wmod smod wave : List ℝ) (vrad : Option ℝ) (cs : Option (List ℝ)) : List ℝ :=
  let wmod2 := match vrad with
    | some v => wmod.map fun x => x * rvFactorOf v
    | none => wmod
  let smod2 := interp wmod2 smod wave
  match cs with
  | none => smod2
  | some c =>
      if ∀ x ∈ c, x = 0 then smod2
      else List.zipWith (fun s wv => s * polyval c (wv - wave.headI)) smod2 wave

/-! ## Helper lemmas -/

theorem clight_pos : 0 < clight := by norm_num [clight]

theorem clight_ne_zero : clight ≠ 0 := ne_of_gt clight_pos

/-- Closed form of the total padding of the Wavelength-Range Planner. -/
theorem totalPad_eq (w1 w2 v vs : ℝ) :
    totalPad (w1, w2) v vs =
      (w1 * (30 + 0.5 * max vs 0 + max v 0)
        + w2 * (30 + 0.5 * max vs 0 - min v 0)) / clight := by
  have hc : clight ≠ 0 := clight_ne_zero
  simp only [totalPad, get_wavelengthrange]
  field_simp
  ring

/-! ## C3: Wavelength-Range Planner padding monotonicity -/

/-- C3 counterexample: the claim that the total padding is monotonically
non-decreasing in the absolute value of the radial velocity is false as
stated.  For the interval (1, 100) with zero rotational velocity, the radial
velocities -1 and 1 have equal absolute value, yet the padding at -1 (a
blueshift, which widens the red end, scaled by the larger endpoint 100)
strictly exceeds the padding at 1. -/
theorem claim_C3_counterexample :
    (0 < (1 : ℝ) ∧ 0 < (100 : ℝ)) ∧ |(-1 : ℝ)| ≤ |(1 : ℝ)| ∧
    ¬ totalPad (1, 100) (-1) 0 ≤ totalPad (1, 100) 1 0 := by
  refine ⟨⟨by norm_num, by norm_num⟩, by norm_num, ?_⟩
  rw [not_le, totalPad_eq, totalPad_eq]
  have h1 : max (-1 : ℝ) 0 = 0 := max_eq_right (by norm_num)
  have h2 : min (-1 : ℝ) 0 = -1 := min_eq_left (by norm_num)
  have h3 : max (1 : ℝ) 0 = 1 := max_eq_left (by norm_num)
  have h4 : min (1 : ℝ) 0 = 0 := min_eq_right (by norm_num)
  rw [h1, h2, h3, h4, max_self]
  rw [div_lt_div_iff₀ clight_pos clight_pos]
  nlinarith [clight_pos]

/-- C3 amended: for positive interval endpoints the total padding is
monotonically non-decreasing in the radial velocity separately on each sign
(non-decreasing in |vrad| among redshifts, and among blueshifts), and
non-decreasing in the rotational velocity; when both velocities are zero the
padded interval is exactly the base 30 km/s pad,
`(wran.1 * (1 - 30/clight), wran.2 * (1 + 30/clight))`.  Across a sign change
of the radial velocity the padding is not a function of |vrad| alone, because
redshift widens the blue end (scaled by the small endpoint) and blueshift the
red end (scaled by the large endpoint). -/
theorem claim_C3 (w1 w2 vr vr' vb vb' vs vs' vv vw : ℝ)
    (h1 : 0 < w1) (h2 : 0 < w2)
    (hr0 : 0 ≤ vr) (hr : vr ≤ vr') (hb0 : vb ≤ 0) (hb : vb' ≤ vb) (hs : vs ≤ vs') :
    totalPad (w1, w2) vr vv ≤ totalPad (w1, w2) vr' vv ∧
    totalPad (w1, w2) vb vv ≤ totalPad (w1, w2) vb' vv ∧
    totalPad (w1, w2) vw vs ≤ totalPad (w1, w2) vw vs' ∧
    get_wavelengthrange (w1, w2) 0 0 =
      (w1 * (1 - 30 / clight), w2 * (1 + 30 / clight)) := by
  refine ⟨?_, ?_, ?_, ?_⟩
  · rw [totalPad_eq, totalPad_eq, div_le_div_iff_of_pos_right clight_pos]
    have e1 : max vr 0 = vr := max_eq_left hr0
    have e2 : max vr' 0 = vr' := max_eq_left (le_trans hr0 hr)
    have e3 : min vr 0 = 0 := min_eq_right hr0
    have e4 : min vr' 0 = 0 := min_eq_right (le_trans hr0 hr)
    rw [e1, e2, e3, e4]
    nlinarith
  · rw [totalPad_eq, totalPad_eq, div_le_div_iff_of_pos_right clight_pos]
    have e1 : max vb 0 = 0 := max_eq_right hb0
    have e2 : max vb' 0 = 0 := max_eq_right (le_trans hb hb0)
    have e3 : min vb 0 = vb := min_eq_left hb0
    have e4 : min vb' 0 = vb' := min_eq_left (le_trans hb hb0)
    rw [e1, e2, e3, e4]
    nlinarith
  · rw [totalPad_eq, totalPad_eq, div_le_div_iff_of_pos_right clight_pos]
    have e1 : max vs 0 ≤ max vs' 0 := max_le_max hs le_rfl
    nlinarith [le_max_right vs 0, le_max_right vs' 0]
  · simp only [get_wavelengthrange, max_self, min_self]
    norm_num

/-- C3 witness: the amended monotonicity and exact-zero-pad statement at
concrete inputs. -/
theorem claim_C3_witness :
    (0 < (1 : ℝ) ∧ 0 < (2 : ℝ) ∧ 0 ≤ (1 : ℝ) ∧ (1 : ℝ) ≤ 2 ∧ (-2 : ℝ) ≤ 0 ∧
      (-3 : ℝ) ≤ -2 ∧ (0 : ℝ) ≤ 1) ∧
    (totalPad (1, 2) 1 5 ≤ totalPad (1, 2) 2 5 ∧
     totalPad (1, 2) (-2) 5 ≤ totalPad (1, 2) (-3) 5 ∧
     totalPad (1, 2) 7 0 ≤ totalPad (1, 2) 7 1 ∧
     get_wavelengthrange (1, 2) 0 0 =
       (1 * (1 - 30 / clight), 2 * (1 + 30 / clight))) :=
  ⟨⟨by norm_num, by norm_num, by norm_num, by norm_num, by norm_num, by norm_num,
     by norm_num⟩,
   claim_C3 1 2 1 2 (-2) (-3) 0 1 5 7 (by norm_num) (by norm_num) (by norm_num)
     (by norm_num) (by norm_num) (by norm_num) (by norm_num)⟩

/-! ## C5: AtmosphereError is caught and the sentinel +inf returned -/

/-- C5: if the spectral synthesis invoked by `residuals` raises an
`AtmosphereError`, then `residuals` returns the single scalar sentinel
`np.inf` instead of propagating the error. -/
theorem claim_C5 (synthesize : SynthState → Except AtmosphereError SynthState)
    (sme : SynthState) (spec uncs : List FloatVal) (mask : Option (List Bool))
    (e : AtmosphereError) (h : synthesize sme = .error e) :
    residuals synthesize sme spec uncs mask = .scalar .pinf := by
  rw [residuals, h]

/-- C5 witness: a synthesizer that reports "atmosphere out of range" on the
concrete state makes `residuals` return the sentinel. -/
theorem claim_C5_witness :
    (fun _ : SynthState =>
        (Except.error ⟨"atmosphere out of range"⟩ :
          Except AtmosphereError SynthState)) ⟨[.fin 1]⟩ =
      Except.error ⟨"atmosphere out of range"⟩ ∧
    residuals
        (fun _ : SynthState =>
          (Except.error ⟨"atmosphere out of range"⟩ :
            Except AtmosphereError SynthState))
        ⟨[.fin 1]⟩ [.fin 1] [.fin 1] none = .scalar .pinf :=
  ⟨rfl, claim_C5 _ ⟨[.fin 1]⟩ [.fin 1] [.fin 1] none ⟨"atmosphere out of range"⟩ rfl⟩

/-! ## C10: out-of-range segment indices raise before the engine is driven -/

/-- C10: for an explicit segment-index list containing a negative index or an
index at least the segment count, `synthesize_spectrum` raises
`IndexError("Segment(s) out of range")`, and does so before driving the
external engine for any segment: the result is the same error for every
possible engine. -/
theorem claim_C10 {α : Type} (nseg : ℕ) (segs : List ℤ) (engine engine2 : ℤ → α)
    (s : ℤ) (hmem : s ∈ segs) (hbad : s < 0 ∨ (nseg : ℤ) ≤ s) :
    synthesizeSegments nseg engine (.idx segs) = .error "Segment(s) out of range" ∧
    synthesizeSegments nseg engine (.idx segs) =
      synthesizeSegments nseg engine2 (.idx segs) := by
  have hany : segs.any (fun x => decide (x < 0) || decide ((nseg : ℤ) ≤ x)) = true := by
    rw [List.any_eq_true]
    refine ⟨s, hmem, ?_⟩
    rcases hbad with h | h
    · simp [h]
    · simp [h]
  have hv : validateSegments nseg (.idx segs) = .error "Segment(s) out of range" := by
    simp [validateSegments, hany]
  constructor
  · simp only [synthesizeSegments, hv]
    rfl
  · simp only [synthesizeSegments, hv]
    rfl

/-- C10 witness: segment index 3 with only 2 segments yields the IndexError,
independently of the engine. -/
theorem claim_C10_witness :
    ((3 : ℤ) ∈ [(3 : ℤ)] ∧ ((3 : ℤ) < 0 ∨ ((2 : ℕ) : ℤ) ≤ 3)) ∧
    (synthesizeSegments 2 (fun _ => (0 : ℕ)) (.idx [3]) =
        .error "Segment(s) out of range" ∧
      synthesizeSegments 2 (fun _ => (0 : ℕ)) (.idx [3]) =
        synthesizeSegments 2 (fun _ => (1 : ℕ)) (.idx [3])) :=
  ⟨⟨by decide, by decide⟩,
   claim_C10 2 [3] (fun _ => (0 : ℕ)) (fun _ => (1 : ℕ)) 3 (by decide) (by decide)⟩

/-! ## C9: Doppler rescaling before resampling -/

/-- C9: in the post-processing loop of `synthesize_spectrum`, a segment whose
determined radial velocity is `some v` has its model wavelength grid
multiplied elementwise by `sqrt((1 + v/clight) / (1 - v/clight))` before the
flux is resampled (by the interpolator) onto the output wavelength array,
while a segment whose radial velocity is `None` is resampled from the
unscaled grid; the continuum step is applied after resampling in both cases. -/
theorem claim_C9 (interp : List ℝ → List ℝ → List ℝ → List ℝ)
    (wmod smod wave : List ℝ) (v : ℝ) (cs : Option (List ℝ)) :
    applySegmentPost interp wmod smod wave (some v) cs =
      contApply cs wave
        (interp (wmod.map fun x =>
          x * Real.sqrt ((1 + v / clight) / (1 - v / clight))) smod wave) ∧
    applySegmentPost interp wmod smod wave none cs =
      contApply cs wave (interp wmod smod wave) := by
  constructor
  · cases cs with
    | none => rfl
    | some c => simp [applySegmentPost, contApply, rvFactorOf]
  · cases cs with
    | none => rfl
    | some c => simp [applySegmentPost, contApply]

/-! ## C4: nan_to_num replacement in the residual vector -/

/-- C4 counterexample: a residual entry that is positive infinity (here
`(1 - 0) / (0 + 0)`) is not replaced by zero; `np.nan_to_num` with default
arguments replaces it by the largest finite double.  Only NaN entries become
zero. -/
theorem claim_C4_counterexample :
    fdiv (fsub (.fin 1) (.fin 0)) (fadd (.fin 0) (.fin 0)) = .pinf ∧
    residuals Except.ok ⟨[.fin 1]⟩ [.fin 0] [.fin 0] none = .arr [.fin FMAX] ∧
    residuals Except.ok ⟨[.fin 1]⟩ [.fin 0] [.fin 0] none ≠ .arr [.fin 0] := by
  refine ⟨by norm_num [fdiv, fsub, fadd], ?_, ?_⟩
  · norm_num [residuals, residualsVector, fdiv, fsub, fadd, nan_to_num]
  · norm_num [residuals, residualsVector, fdiv, fsub, fadd, nan_to_num, FMAX]

/-- C4 amended: in the residual vector returned by `residuals`, each entry is
`np.nan_to_num` of the raw residual `(synth - spec) / (uncs + 0)` at the same
index: NaN entries are replaced by zero, positive infinity by the largest
finite double, negative infinity by its negation, and finite entries are
returned unchanged. -/
theorem claim_C4 (s o u : List FloatVal) (i : ℕ)
    (h : i < (residualsVector s o u).length) :
    (residualsVector s o u).getD i .nan =
      match fdiv (fsub (s.getD i .nan) (o.getD i .nan))
          (fadd (u.getD i .nan) (.fin 0)) with
      | .nan => .fin 0
      | .pinf => .fin FMAX
      | .ninf => .fin (-FMAX)
      | .fin q => .fin q := by
  have hlen : (residualsVector s o u).length =
      min (min s.length o.length) u.length := by
    simp [residualsVector]
  have hs : i < s.length := by rw [hlen] at h; omega
  have ho : i < o.length := by rw [hlen] at h; omega
  have hu : i < u.length := by rw [hlen] at h; omega
  rw [List.getD_eq_getElem _ _ h, List.getD_eq_getElem _ _ hs,
    List.getD_eq_getElem _ _ ho, List.getD_eq_getElem _ _ hu]
  simp only [residualsVector, List.getElem_map, List.getElem_zipWith]
  cases hfd : fdiv (fsub s[i] o[i]) (fadd u[i] (.fin 0)) <;> rfl

/-- C4 witness: the amended replacement characterization at a concrete
finite entry. -/
theorem claim_C4_witness :
    0 < (residualsVector [.fin 3] [.fin 1] [.fin 2]).length ∧
    (residualsVector [.fin 3] [.fin 1] [.fin 2]).getD 0 .nan =
      match fdiv (fsub (([.fin 3] : List FloatVal).getD 0 .nan)
          (([.fin 1] : List FloatVal).getD 0 .nan))
          (fadd (([.fin 2] : List FloatVal).getD 0 .nan) (.fin 0)) with
      | .nan => .fin 0
      | .pinf => .fin FMAX
      | .ninf => .fin (-FMAX)
      | .fin q => .fin q :=
  ⟨by norm_num [residualsVector], claim_C4 [.fin 3] [.fin 1] [.fin 2] 0
    (by norm_num [residualsVector])⟩

/-! ## C6: the stored reduced chi-square -/

/-- C6 counterexample: the stored reduced chi-square divides by the full
stored spectrum size (`sme.spec.size`), not by the number of residual
comparison points.  With 10 stored points of which only 5 are masked good,
cost 1 and 3 parameters, the stored value is 2/7 while the claimed formula
over comparison points gives 1. -/
theorem claim_C6_counterexample :
    comparisonPoints
        ⟨[[0, 0, 0, 0, 0, 0, 0, 0, 0, 0]],
         [[true, true, true, true, true, false, false, false, false, false]]⟩
        [0] = 5 ∧
    fitChisq
        ⟨[[0, 0, 0, 0, 0, 0, 0, 0, 0, 0]],
         [[true, true, true, true, true, false, false, false, false, false]]⟩
        1 3 ≠
      1 * 2 / (((5 : ℕ) : ℝ) - ((3 : ℕ) : ℝ)) := by
  constructor
  · rfl
  · have h10 : specTotalSize
        ⟨[[0, 0, 0, 0, 0, 0, 0, 0, 0, 0]],
         [[true, true, true, true, true, false, false, false, false, false]]⟩ = 10 := rfl
    rw [fitChisq, h10]
    norm_num

/-- Helper: mapping an index-based read over the range of a list's length
recovers the list. -/
theorem range_map_getD {α β : Type} (l : List α) (d : α) (g : α → β) :
    (List.range l.length).map (fun i => g (l.getD i d)) = l.map g := by
  induction l with
  | nil => simp
  | cons a t ih =>
      rw [List.length_cons, List.range_succ_eq_map, List.map_cons, List.map_map]
      have he : ((fun i => g (List.getD (a :: t) i d)) ∘ Nat.succ)
          = fun i => g (t.getD i d) := by
        funext i
        simp [List.getD_cons_succ]
      rw [List.getD_cons_zero, he, ih, List.map_cons]

/-- C6 amended: the stored reduced chi-square equals
`cost * 2 / (sme.spec.size - nparam)` over the full stored spectrum size;
when every stored point is masked good and all segments are fitted, this
coincides with the comparison-point formula `2*cost/(n_points - n_parameters)`
of the claim. -/
theorem claim_C6 (sme : SmeState) (cost : ℝ) (nparam : ℕ)
    (hm : sme.mask_good = sme.spec.map fun seg => List.replicate seg.length true) :
    fitChisq sme cost nparam =
      cost * 2 /
        ((comparisonPoints sme (List.range sme.spec.length) : ℝ) - (nparam : ℝ)) := by
  have key : comparisonPoints sme (List.range sme.spec.length) = specTotalSize sme := by
    rw [comparisonPoints, specTotalSize, hm]
    have hlen : sme.spec.length =
        (sme.spec.map fun seg => List.replicate seg.length true).length := by
      rw [List.length_map]
    rw [hlen]
    rw [range_map_getD (sme.spec.map fun seg => List.replicate seg.length true) []
      (fun m => (m.filter fun b => b).length)]
    rw [List.map_map]
    exact congrArg List.sum (List.map_congr_left fun seg _ => by simp)
  rw [fitChisq, key]

/-- C6 witness: the amended chi-square equality on a concrete two-segment
state with an all-good mask. -/
theorem claim_C6_witness :
    (SmeState.mask_good ⟨[[1, 2], [3]], [[true, true], [true]]⟩ =
      (SmeState.spec ⟨[[1, 2], [3]], [[true, true], [true]]⟩).map
        (fun seg => List.replicate seg.length true)) ∧
    fitChisq ⟨[[1, 2], [3]], [[true, true], [true]]⟩ 5 1 =
      5 * 2 /
        ((comparisonPoints ⟨[[1, 2], [3]], [[true, true], [true]]⟩
            (List.range (SmeState.spec
              ⟨[[1, 2], [3]], [[true, true], [true]]⟩).length) : ℝ) - ((1 : ℕ) : ℝ)) :=
  ⟨rfl, claim_C6 ⟨[[1, 2], [3]], [[true, true], [true]]⟩ 5 1 rfl⟩

/-! ## C7: the special names vrad and cont -/

/-- C7 (code bug): with `"vrad"` among the parameter names, the claim says
`solve` sets the radial-velocity-per-segment mode flag and drops `"vrad"`
from the continuous parameter list.  The code instead crashes: after
`np.unique` (solve.py line 334) `param_names` is a `numpy.ndarray`, which has
no method `remove`, so `param_names.remove("vrad")` (line 338) raises
`AttributeError` before `sme.vrad_flag = "each"` (line 339) runs.  The same
happens for `"cont"` (lines 341-343). -/
theorem claim_C7_bug :
    "vrad" ∈ sanitizeParamNames ["teff", "logg", "monh", "vrad"] ∧
    solveParamSetup ["teff", "logg", "monh", "vrad"] =
      .error "AttributeError: numpy.ndarray object has no attribute remove" ∧
    "cont" ∈ sanitizeParamNames ["teff", "cont"] ∧
    solveParamSetup ["teff", "cont"] =
      .error "AttributeError: numpy.ndarray object has no attribute remove" := by
  refine ⟨by decide, rfl, by decide, rfl⟩

/-! ## C8: parameter-name normalization and first-occurrence deduplication -/

/-- Membership in the first-occurrence deduplication is membership in the
original list. -/
theorem mem_uniqueFirst {x : String} : ∀ {l : List String},
    x ∈ uniqueFirst l ↔ x ∈ l := by
  intro l
  induction l with
  | nil => simp [uniqueFirst]
  | cons a as ih =>
      simp only [uniqueFirst, List.mem_cons, List.mem_filter, ih, ne_eq,
        decide_eq_true_eq]
      by_cases hx : x = a
      · simp [hx]
      · simp [hx]

/-- The first-occurrence deduplication contains no duplicates. -/
theorem nodup_uniqueFirst : ∀ l : List String, (uniqueFirst l).Nodup := by
  intro l
  induction l with
  | nil => exact List.nodup_nil
  | cons a as ih =>
      refine List.Nodup.cons ?_ (ih.filter _)
      intro hmem
      have := (List.mem_filter.mp hmem).2
      simp at this

/-- The first-occurrence deduplication is strictly increasing in
first-occurrence index. -/
theorem pairwise_indexOf_uniqueFirst : ∀ l : List String,
    (uniqueFirst l).Pairwise fun a b => l.indexOf a < l.indexOf b := by
  intro l
  induction l with
  | nil => exact List.Pairwise.nil
  | cons a as ih =>
      refine List.Pairwise.cons ?_ ?_
      · intro b hb
        have hbne : b ≠ a := by
          have := (List.mem_filter.mp hb).2
          simpa using this
        rw [List.indexOf_cons_self, List.indexOf_cons_ne as (Ne.symm hbne)]
        exact Nat.succ_pos _
      · have hfil : (List.filter (fun b => decide (b ≠ a)) (uniqueFirst as)).Pairwise
            fun x y => as.indexOf x < as.indexOf y := ih.filter _
        refine hfil.imp_of_mem ?_
        intro x y hx hy hxy
        have hxa : x ≠ a := by
          have := (List.mem_filter.mp hx).2
          simpa using this
        have hya : y ≠ a := by
          have := (List.mem_filter.mp hy).2
          simpa using this
        rw [List.indexOf_cons_ne as (Ne.symm hxa), List.indexOf_cons_ne as (Ne.symm hya)]
        exact Nat.succ_lt_succ hxy

/-- A list that is weakly sorted by an injective-on-it key and has no
duplicates is strictly sorted by that key. -/
theorem pairwise_lt_of_pairwise_le (key : String → ℕ) : ∀ (A : List String),
    (A.Pairwise fun a b => key a ≤ key b) → A.Nodup →
    (∀ a ∈ A, ∀ b ∈ A, key a = key b → a = b) →
    A.Pairwise fun a b => key a < key b := by
  intro A
  induction A with
  | nil => intro _ _ _; exact List.Pairwise.nil
  | cons a as ih =>
      intro hle hnd hinj
      have hle1 : ∀ b ∈ as, key a ≤ key b := fun b hb =>
        List.rel_of_pairwise_cons hle hb
      have hle2 : as.Pairwise fun x y => key x ≤ key y := hle.of_cons
      have hnd1 := (List.nodup_cons.mp hnd).1
      have hnd2 := (List.nodup_cons.mp hnd).2
      refine List.Pairwise.cons ?_ ?_
      · intro b hb
        have hne : a ≠ b := fun he => hnd1 (he ▸ hb)
        have : key a ≠ key b := fun he =>
          hne (hinj a (List.mem_cons_self a as) b (List.mem_cons_of_mem a hb) he)
        exact lt_of_le_of_ne (hle1 b hb) this
      · exact ih hle2 hnd2 fun x hx y hy hxy =>
          hinj x (List.mem_cons_of_mem a hx) y (List.mem_cons_of_mem a hy) hxy

/-- The net effect of `np.unique(..., return_index=True)` followed by
`argsort` reordering is exactly first-occurrence deduplication: sorting the
distinct values and then re-sorting them by their first-occurrence index
recovers the first-occurrence order. -/
theorem npUniqueFirstOrder_eq (l : List String) :
    npUniqueFirstOrder l = uniqueFirst l := by
  haveI hTot : IsTotal String fun a b => l.indexOf a ≤ l.indexOf b :=
    ⟨fun a b => Nat.le_total _ _⟩
  haveI hTrans : IsTrans String fun a b => l.indexOf a ≤ l.indexOf b :=
    ⟨fun a b c hab hbc => Nat.le_trans hab hbc⟩
  haveI hAnti : IsAntisymm String fun a b => l.indexOf a < l.indexOf b :=
    ⟨fun a b h1 h2 => absurd (Nat.lt_trans h1 h2) (Nat.lt_irrefl _)⟩
  have hperm : List.Perm (npUniqueFirstOrder l) (uniqueFirst l) := by
    unfold npUniqueFirstOrder npUniqueSorted
    exact (List.perm_insertionSort _ _).trans (List.perm_insertionSort _ _)
  have hsorted : (npUniqueFirstOrder l).Pairwise
      fun a b => l.indexOf a ≤ l.indexOf b := by
    unfold npUniqueFirstOrder
    exact List.sorted_insertionSort _ _
  have hnodupA : (npUniqueFirstOrder l).Nodup :=
    hperm.nodup_iff.mpr (nodup_uniqueFirst l)
  have hmemA : ∀ a ∈ npUniqueFirstOrder l, a ∈ l := fun a ha =>
    mem_uniqueFirst.mp (hperm.mem_iff.mp ha)
  have hstrictA : (npUniqueFirstOrder l).Pairwise
      fun a b => l.indexOf a < l.indexOf b :=
    pairwise_lt_of_pairwise_le (fun x => l.indexOf x) _ hsorted hnodupA
      fun a ha b hb hk => (List.indexOf_inj (hmemA a ha) (hmemA b hb)).mp hk
  exact List.eq_of_perm_of_sorted hperm hstrictA (pairwise_indexOf_uniqueFirst l)

/-- C8: names differing only in letter case collapse to a single canonical
name, the synonyms grav (for logg) and feh (for monh) are mapped before the
uniqueness check, and the sanitized parameter list of `solve` equals the
first-occurrence deduplication of the canonicalized names: duplicates are
removed and the order of first occurrence is preserved. -/
theorem claim_C8 (names : List String) (s t : String)
    (hcase : casefold s = casefold t) :
    canonName s = canonName t ∧
    canonName "GRAV" = "logg" ∧ canonName "FeH" = "monh" ∧
    sanitizeParamNames names = uniqueFirst (names.map canonName) := by
  refine ⟨?_, by decide, by decide, npUniqueFirstOrder_eq _⟩
  simp only [canonName, hcase]

/-- C8 witness: the normalization pipeline at concrete names, including a
case-variant pair, both synonyms, and a duplicate. -/
theorem claim_C8_witness :
    casefold "TEFF" = casefold "Teff" ∧
    (canonName "TEFF" = canonName "Teff" ∧
     canonName "GRAV" = "logg" ∧ canonName "FeH" = "monh" ∧
     sanitizeParamNames ["Teff", "GRAV", "FeH", "teff", "fe abund"] =
       uniqueFirst (["Teff", "GRAV", "FeH", "teff", "fe abund"].map canonName)) :=
  ⟨by decide, claim_C8 ["Teff", "GRAV", "FeH", "teff", "fe abund"] "TEFF" "Teff"
    (by decide)⟩

/-! ## Grid Builder helper lemmas -/

theorem length_geomspace (a b : ℝ) (n : ℕ) : (geomspace a b n).length = n := by
  rw [geomspace, List.length_map, List.length_range]

theorem geomspace_getD (a b : ℝ) (n k : ℕ) (h : k < n) :
    (geomspace a b n).getD k 0 = a * (b / a) ^ ((k : ℝ) / ((n : ℝ) - 1)) := by
  have hlen : k < (geomspace a b n).length := by rw [length_geomspace]; exact h
  rw [List.getD_eq_getElem _ _ hlen]
  simp only [geomspace, List.getElem_map, List.getElem_range]

theorem geomspace_first (a b : ℝ) (n : ℕ) (h : 0 < n) :
    (geomspace a b n).getD 0 0 = a := by
  rw [geomspace_getD a b n 0 h]
  norm_num

theorem geomspace_last (a b : ℝ) (n : ℕ) (h : 2 ≤ n) (ha : a ≠ 0) :
    (geomspace a b n).getD (n - 1) 0 = b := by
  rw [geomspace_getD a b n (n - 1) (by omega)]
  have hn1 : (1 : ℕ) ≤ n := by omega
  have hcast : (((n - 1 : ℕ)) : ℝ) = (n : ℝ) - 1 := by
    push_cast [Nat.cast_sub hn1]
    ring
  have hne : (n : ℝ) - 1 ≠ 0 := by
    have h2 : (2 : ℝ) ≤ (n : ℝ) := by exact_mod_cast h
    linarith
  rw [hcast, div_self hne, Real.rpow_one, mul_comm, div_mul_cancel₀ b ha]

theorem nxOdd_odd (w : List ℝ) : nxOddOf w % 2 = 1 := by
  rw [nxOddOf]
  rcases Int.emod_two_eq_zero_or_one (nxOf w) with h | h
  · rw [if_pos h]; omega
  · rw [if_neg (by omega)]; exact h

theorem nxOdd_ge (w : List ℝ) (h : 2 ≤ nxOf w) : 3 ≤ nxOddOf w := by
  rw [nxOddOf]
  rcases Int.emod_two_eq_zero_or_one (nxOf w) with hp | hp
  · rw [if_pos hp]; omega
  · rw [if_neg (by omega)]; omega

theorem headI_mem_of_ne_nil {w : List ℝ} (h : w ≠ []) : w.headI ∈ w := by
  cases w with
  | nil => exact absurd rfl h
  | cons a t => exact List.mem_cons_self a t

theorem getLastI_mem_of_ne_nil {w : List ℝ} (h : w ≠ []) : w.getLastI ∈ w := by
  rw [List.getLastI_eq_getLast?, List.getLast?_eq_getLast w h]
  exact List.getLast_mem h

/-! ## C1: odd point count and exact endpoints of the adaptive grid -/

/-- C1 amended: for an intrinsic wavelength array with at least two points,
positive and strictly increasing, whose log-span is at least one chosen
velocity step (so that the computed point count is at least 2), the builder
returns a grid with an odd number of points whose first and last elements are
exactly the first and last input wavelengths. -/
theorem claim_C1 (w : List ℝ) (hlen : 2 ≤ w.length)
    (hpos : ∀ x ∈ w, 0 < x) (_hchain : w.Chain' (· < ·)) (hnx : 2 ≤ nxOf w) :
    new_wavelength_grid w = some (gridOf w, vstepOutOf w) ∧
    Odd (gridOf w).length ∧
    (gridOf w).getD 0 0 = w.headI ∧
    (gridOf w).getD ((gridOf w).length - 1) 0 = w.getLastI := by
  have h3 : 3 ≤ nxOddOf w := nxOdd_ge w hnx
  have hodd : nxOddOf w % 2 = 1 := nxOdd_odd w
  have hlen_g : (gridOf w).length = (nxOddOf w).toNat := by
    rw [gridOf, length_geomspace]
  have hne : w ≠ [] := List.length_pos.mp (by omega)
  have hbpos : 0 < wbegOf w := hpos _ (headI_mem_of_ne_nil hne)
  refine ⟨?_, ?_, ?_, ?_⟩
  · rw [new_wavelength_grid, if_pos (by omega)]
  · rw [hlen_g, Nat.odd_iff]
    omega
  · rw [gridOf, geomspace_first _ _ _ (by omega)]
    rfl
  · rw [hlen_g, gridOf, geomspace_last _ _ _ (by omega) (ne_of_gt hbpos)]
    rfl

/-! ## Evaluation lemmas at the concrete input [1, 2] -/

theorem vstep1_12 : vstep1Of [(1 : ℝ), 2] = clight := by
  have hd : diffOf [(1 : ℝ), 2] = [1] := by
    norm_num [diffOf]
  rw [vstep1Of, hd]
  norm_num [npargmin, argminAux]

theorem vstep2_12 : vstep2Of [(1 : ℝ), 2] = clight / 15 := by
  rw [vstep2Of]
  norm_num [wbegOf, wendOf, List.getLastI]
  ring

theorem vstepChosen_12 : vstepChosen [(1 : ℝ), 2] = clight := by
  rw [vstepChosen, vstep1_12, vstep2_12]
  rw [max_eq_left (by norm_num [clight] : clight / 15 ≤ clight)]
  rw [max_eq_left (by norm_num [clight] : (0.05 : ℝ) ≤ clight)]

theorem nx_12 : nxOf [(1 : ℝ), 2] = 2 := by
  rw [nxOf, vstepChosen_12]
  have hr : wendOf [(1 : ℝ), 2] / wbegOf [(1 : ℝ), 2] = 2 := by
    norm_num [wendOf, wbegOf, List.getLastI]
  have hc : (1 : ℝ) + clight / clight = 2 := by
    rw [div_self clight_ne_zero]
    norm_num
  rw [hr, hc]
  have hlb : (0 : ℝ) < Real.logb 10 2 :=
    Real.logb_pos (by norm_num) (by norm_num)
  rw [abs_of_nonneg (le_of_lt hlb), div_self (ne_of_gt hlb)]
  norm_num

theorem nxOdd_12 : nxOddOf [(1 : ℝ), 2] = 3 := by
  rw [nxOddOf, nx_12]
  norm_num

theorem vstepOut_12 : vstepOutOf [(1 : ℝ), 2] = clight * (Real.log 2 / 2) := by
  have hg0 : (gridOf [(1 : ℝ), 2]).getD 0 0 = 1 := by
    rw [gridOf, nxOdd_12, show ((3 : ℤ).toNat) = 3 from rfl,
      geomspace_first _ _ _ (by norm_num)]
    norm_num [wbegOf]
  have hg1 : (gridOf [(1 : ℝ), 2]).getD 1 0 = (2 : ℝ) ^ ((1 : ℝ) / 2) := by
    rw [gridOf, nxOdd_12, show ((3 : ℤ).toNat) = 3 from rfl,
      geomspace_getD _ _ _ 1 (by norm_num)]
    norm_num [wbegOf, wendOf, List.getLastI]
  rw [vstepOutOf, hg0, hg1]
  rw [Real.log_rpow (by norm_num : (0 : ℝ) < 2), Real.log_one, one_div,
    division_def, inv_inv]
  ring

/-- C1 witness: the amended statement at the concrete intrinsic grid [1, 2]:
the computed point count is 2, forced odd to 3, and the grid endpoints are
exactly 1 and 2. -/
theorem claim_C1_witness :
    (2 ≤ ([(1 : ℝ), 2]).length ∧ (∀ x ∈ [(1 : ℝ), 2], 0 < x) ∧
      List.Chain' (· < ·) [(1 : ℝ), 2] ∧ 2 ≤ nxOf [(1 : ℝ), 2]) ∧
    (new_wavelength_grid [(1 : ℝ), 2] =
        some (gridOf [(1 : ℝ), 2], vstepOutOf [(1 : ℝ), 2]) ∧
      Odd (gridOf [(1 : ℝ), 2]).length ∧
      (gridOf [(1 : ℝ), 2]).getD 0 0 = ([(1 : ℝ), 2]).headI ∧
      (gridOf [(1 : ℝ), 2]).getD ((gridOf [(1 : ℝ), 2]).length - 1) 0 =
        ([(1 : ℝ), 2]).getLastI) :=
  ⟨⟨by norm_num, by norm_num, by norm_num [List.chain'_cons],
     by rw [nx_12]⟩,
   claim_C1 [(1 : ℝ), 2] (by norm_num) (by norm_num)
     (by norm_num [List.chain'_cons]) (by rw [nx_12])⟩

/-! ## Evaluation lemmas at the tiny-span input [1, 1 + 1e-8] -/

theorem vstep1_eps : vstep1Of [(1 : ℝ), 1 + 1 / 100000000] = clight / 100000000 := by
  have hd : diffOf [(1 : ℝ), 1 + 1 / 100000000] = [1 / 100000000] := by
    norm_num [diffOf]
  rw [vstep1Of, hd]
  norm_num [npargmin, argminAux]
  ring

theorem vstep2_eps_le : vstep2Of [(1 : ℝ), 1 + 1 / 100000000] ≤ 0.05 := by
  rw [vstep2Of]
  norm_num [wbegOf, wendOf, List.getLastI, clight]

theorem vstepChosen_eps : vstepChosen [(1 : ℝ), 1 + 1 / 100000000] = 0.05 := by
  rw [vstepChosen]
  rw [max_eq_right (max_le (by rw [vstep1_eps]; norm_num [clight]) vstep2_eps_le)]

theorem nx_eps : nxOf [(1 : ℝ), 1 + 1 / 100000000] = 1 := by
  rw [nxOf, vstepChosen_eps]
  have hr : wendOf [(1 : ℝ), 1 + 1 / 100000000] / wbegOf [(1 : ℝ), 1 + 1 / 100000000]
      = 1 + 1 / 100000000 := by
    norm_num [wendOf, wbegOf, List.getLastI]
  rw [hr]
  have hb : (1 : ℝ) < 10 := by norm_num
  have hnum0 : (0 : ℝ) ≤ Real.logb 10 (1 + 1 / 100000000) :=
    Real.logb_nonneg hb (by norm_num)
  have hden : (0 : ℝ) < Real.logb 10 (1 + 0.05 / clight) :=
    Real.logb_pos hb (by norm_num [clight])
  have hlt : Real.logb 10 (1 + 1 / 100000000) < Real.logb 10 (1 + 0.05 / clight) :=
    Real.logb_lt_logb hb (by norm_num) (by norm_num [clight])
  have hL0 : (0 : ℝ) ≤
      Real.logb 10 (1 + 1 / 100000000) / Real.logb 10 (1 + 0.05 / clight) :=
    div_nonneg hnum0 (le_of_lt hden)
  have hL1 : Real.logb 10 (1 + 1 / 100000000) / Real.logb 10 (1 + 0.05 / clight) < 1 :=
    (div_lt_one hden).mpr hlt
  rw [abs_of_nonneg hnum0, Int.floor_eq_iff]
  constructor
  · push_cast
    linarith
  · push_cast
    linarith

theorem nxOdd_eps : nxOddOf [(1 : ℝ), 1 + 1 / 100000000] = 1 := by
  rw [nxOddOf, nx_eps]
  norm_num

/-- C1 counterexample: the claim as stated is false.  The intrinsic grid
[1, 1 + 1e-8] has two positive strictly increasing points, but its log-span
is smaller than one 0.05 km/s step, so the computed point count is 1; numpy
then builds a one-point grid and line 534 (`np.diff` of a one-point slice,
indexed at [0]) raises `IndexError`: no grid with matching endpoints is
returned (modelled as `none`). -/
theorem claim_C1_counterexample :
    (2 ≤ ([(1 : ℝ), 1 + 1 / 100000000]).length ∧
      (∀ x ∈ [(1 : ℝ), 1 + 1 / 100000000], 0 < x) ∧
      List.Chain' (· < ·) [(1 : ℝ), 1 + 1 / 100000000]) ∧
    new_wavelength_grid [(1 : ℝ), 1 + 1 / 100000000] = none := by
  refine ⟨⟨by norm_num, by norm_num, by norm_num [List.chain'_cons]⟩, ?_⟩
  rw [new_wavelength_grid, if_neg]
  rw [nxOdd_eps]
  norm_num

/-! ## C2: the chosen step versus the returned realized step -/

/-- C2 counterexample: the velocity step returned by `new_wavelength_grid` is
the realized step recomputed from the first two output points, not the chosen
maximum of the three candidates; for the intrinsic grid [1, 2] the returned
step `clight * log 2 / 2` is strictly smaller than candidate [1], which is
`clight` itself. -/
theorem claim_C2_counterexample :
    new_wavelength_grid [(1 : ℝ), 2] =
      some (gridOf [(1 : ℝ), 2], vstepOutOf [(1 : ℝ), 2]) ∧
    vstepOutOf [(1 : ℝ), 2] < vstep1Of [(1 : ℝ), 2] := by
  constructor
  · rw [new_wavelength_grid, if_pos]
    rw [nxOdd_12]
    norm_num
  · rw [vstepOut_12, vstep1_12]
    have hlog : Real.log 2 < 2 := lt_trans Real.log_two_lt_d9 (by norm_num)
    have hlog0 : 0 < Real.log 2 := Real.log_pos (by norm_num)
    nlinarith [clight_pos]

/-- C2 amended: the step chosen by the builder to size the grid equals the
maximum of the three candidate steps, hence is at least each of them
individually; the value the function returns alongside the grid is the
realized step recomputed from the first two output points,
`clight * log(wend/wbeg) / (nx - 1)`, which can be smaller than the chosen
step because of the endpoint-exact geometric spacing and the odd-forcing of
the point count. -/
theorem claim_C2 (w : List ℝ) (hlen : 2 ≤ w.length)
    (hpos : ∀ x ∈ w, 0 < x) (_hchain : w.Chain' (· < ·)) (hnx : 2 ≤ nxOf w) :
    vstep1Of w ≤ vstepChosen w ∧ vstep2Of w ≤ vstepChosen w ∧
    (0.05 : ℝ) ≤ vstepChosen w ∧
    new_wavelength_grid w = some (gridOf w, vstepOutOf w) ∧
    vstepOutOf w =
      clight * Real.log (wendOf w / wbegOf w) / (((nxOddOf w) : ℝ) - 1) := by
  have h3 : 3 ≤ nxOddOf w := nxOdd_ge w hnx
  have hne : w ≠ [] := List.length_pos.mp (by omega)
  have hbpos : 0 < wbegOf w := hpos _ (headI_mem_of_ne_nil hne)
  have hepos : 0 < wendOf w := hpos _ (getLastI_mem_of_ne_nil hne)
  have hr : 0 < wendOf w / wbegOf w := div_pos hepos hbpos
  have hn2 : 2 ≤ (nxOddOf w).toNat := by omega
  have hcast : (((nxOddOf w).toNat : ℕ) : ℝ) = ((nxOddOf w : ℤ) : ℝ) := by
    have h0 : (0 : ℤ) ≤ nxOddOf w := by omega
    exact_mod_cast congrArg (Int.cast : ℤ → ℝ) (Int.toNat_of_nonneg h0)
  refine ⟨le_trans (le_max_left _ _) (le_max_left _ _),
    le_trans (le_max_right _ _) (le_max_left _ _), le_max_right _ _, ?_, ?_⟩
  · rw [new_wavelength_grid, if_pos (by omega)]
  · have hg0 : (gridOf w).getD 0 0 = wbegOf w := by
      rw [gridOf, geomspace_first _ _ _ (by omega)]
    have hg1 : (gridOf w).getD 1 0 =
        wbegOf w * (wendOf w / wbegOf w) ^
          ((1 : ℝ) / (((nxOddOf w).toNat : ℝ) - 1)) := by
      rw [gridOf, geomspace_getD _ _ _ 1 (by omega)]
      norm_num
    have hnn : (1 : ℝ) ≤ ((nxOddOf w).toNat : ℝ) - 1 := by
      have : (2 : ℝ) ≤ ((nxOddOf w).toNat : ℝ) := by exact_mod_cast hn2
      linarith
    rw [vstepOutOf, hg0, hg1]
    rw [Real.log_mul (ne_of_gt hbpos) (ne_of_gt (Real.rpow_pos_of_pos hr _))]
    rw [Real.log_rpow hr]
    rw [one_div, division_def, inv_inv, hcast]
    ring

/-- C2 witness: the amended statement at the concrete intrinsic grid [1, 2],
whose chosen step is `clight` (candidate [1]) and whose realized returned
step is `clight * log 2 / 2`. -/
theorem claim_C2_witness :
    (2 ≤ ([(1 : ℝ), 2]).length ∧ (∀ x ∈ [(1 : ℝ), 2], 0 < x) ∧
      List.Chain' (· < ·) [(1 : ℝ), 2] ∧ 2 ≤ nxOf [(1 : ℝ), 2]) ∧
    (vstep1Of [(1 : ℝ), 2] ≤ vstepChosen [(1 : ℝ), 2] ∧
      vstep2Of [(1 : ℝ), 2] ≤ vstepChosen [(1 : ℝ), 2] ∧
      (0.05 : ℝ) ≤ vstepChosen [(1 : ℝ), 2] ∧
      new_wavelength_grid [(1 : ℝ), 2] =
        some (gridOf [(1 : ℝ), 2], vstepOutOf [(1 : ℝ), 2]) ∧
      vstepOutOf [(1 : ℝ), 2] =
        clight * Real.log (wendOf [(1 : ℝ), 2] / wbegOf [(1 : ℝ), 2]) /
          (((nxOddOf [(1 : ℝ), 2]) : ℝ) - 1)) :=
  ⟨⟨by norm_num, by norm_num, by norm_num [List.chain'_cons],
     by rw [nx_12]⟩,
   claim_C2 [(1 : ℝ), 2] (by norm_num) (by norm_num)
     (by norm_num [List.chain'_cons]) (by rw [nx_12])⟩
